import Mathlib

/-!
Verification of the BIO span-tagging logic in `src/main/flask/BertNER.py`
and the dataset-generation loop in `src/main/flask/demo.py`.

The tagger is embedded shallowly: Python lists become `List String`,
the slice `tokens[i : i+n]` becomes `window`, the fallible assignment
`labels[i] = v` (which raises `IndexError` when `i` is out of range)
becomes `setAt : … → Option (List String)`, and the whole script-level
loop becomes `tag`, parameterised over the tokenizer (an external
collaborator, `BertTokenizer.tokenize` in the source).
-/

set_option autoImplicit false

namespace BertNER

/-- Python slice `tokens[i : i+n]` (slices clamp, never fail). -/
def window (tokens : List String) (i n : Nat) : List String :=
  (tokens.drop i).take n

/-- Number of iterations of `range(len(tokenized_sentence) - len(entity_tokens) + 1)`:
Python evaluates the bound in `Int`, so a phrase longer than the sentence gives an
empty range rather than `Nat` truncation. -/
def scanCount (tokens entity_tokens : List String) : Nat :=
  if entity_tokens.length ≤ tokens.length then
    tokens.length - entity_tokens.length + 1
  else 0

/-- The inner search loop
`for i in range(…): if tokenized_sentence[i:i+len(entity_tokens)] == entity_tokens: start_index = i; break`,
unrolled as a recursion on the number of remaining iterations, starting at offset `i`. -/
def findStartAux (tokens entity_tokens : List String) : Nat → Nat → Option Nat
  | _, 0 => none
  | i, fuel + 1 =>
    if window tokens i entity_tokens.length = entity_tokens then some i
    else findStartAux tokens entity_tokens (i + 1) fuel

/-- Value of `start_index` after the search loop (`none` = the Python `None`). -/
def findStart (tokens entity_tokens : List String) : Option Nat :=
  findStartAux tokens entity_tokens 0 (scanCount tokens entity_tokens)

/-- Python `labels[i] = v`: in-range assignment, `IndexError` (modelled as `none`)
otherwise. -/
def setAt (labels : List String) (i : Nat) (v : String) : Option (List String) :=
  if i < labels.length then some (labels.set i v) else none

/-- The inner BIO loop `for i in range(start_index + 1, start_index + len(entity_tokens)): labels[i] = "I-" + t`,
as a recursion on the number of remaining iterations. -/
def setIRange (v : String) : List String → Nat → Nat → Option (List String)
  | labels, _, 0 => some labels
  | labels, i, fuel + 1 =>
    match setAt labels i v with
    | some labels' => setIRange v labels' (i + 1) fuel
    | none => none

/-- One iteration of `for entity, entity_type in entities: …`: tokenize the phrase,
search for it, and on a match write `B-`/`I-` labels over the span. -/
def processEntity (tokenize : String → List String) (tokens labels : List String)
    (e : String × String) : Option (List String) :=
  match findStart tokens (tokenize e.1) with
  | none => some labels
  | some start_index =>
    match setAt labels start_index ("B-" ++ e.2) with
    | none => none
    | some labels' =>
      setIRange ("I-" ++ e.2) labels' (start_index + 1) ((tokenize e.1).length - 1)

/-- The entity loop, threading the mutable `labels` list through the iterations. -/
def tagFrom (tokenize : String → List String) (tokens : List String) :
    List String → List (String × String) → Option (List String)
  | labels, [] => some labels
  | labels, e :: es =>
    match processEntity tokenize tokens labels e with
    | none => none
    | some labels' => tagFrom tokenize tokens labels' es

/-- The whole tagging procedure: `labels = ['O'] * len(tokenized_sentence)` followed by
the entity loop. -/
def tag (tokenize : String → List String) (tokens : List String)
    (entities : List (String × String)) : Option (List String) :=
  tagFrom tokenize tokens (List.replicate tokens.length "O") entities

/-- Whitespace tokenizer, a deterministic stand-in used for the spec's concrete
examples (the spec treats the tokenizer as an opaque injected capability). -/
def wsTokenize (s : String) : List String :=
  (s.toList.splitOn ' ').map List.asString

/-- Big-step relational semantics of the entity loop: one constructor per way an
iteration can go (`IndexError` aborts the run, a successful iteration threads the
updated label list). Used to state that any two runs from the same inputs agree. -/
inductive TagRun (tokenize : String → List String) (tokens : List String) :
    List String → List (String × String) → Option (List String) → Prop
  | nil (labels : List String) : TagRun tokenize tokens labels [] (some labels)
  | consFail (labels : List String) (e : String × String) (es : List (String × String)) :
      processEntity tokenize tokens labels e = none →
      TagRun tokenize tokens labels (e :: es) none
  | consOk (labels labels' : List String) (e : String × String)
      (es : List (String × String)) (r : Option (List String)) :
      processEntity tokenize tokens labels e = some labels' →
      TagRun tokenize tokens labels' es r →
      TagRun tokenize tokens labels (e :: es) r

end BertNER

namespace Demo

/-- One record of the input dataset in `demo.py`, with the two fields the
`__main__` loop reads: `TI` (title) and `DE` (keywords). -/
structure Paper where
  TI : String
  DE : String

/-- Python `result.replace("\n", "")` for the fixed one-character pattern `"\n"`:
removing every newline character. -/
def stripNewlines (s : String) : String :=
  List.asString (s.toList.filter (fun c => c != '\n'))

/-- The body of `generatedataset` in `demo.py`, parameterised over the remote
completion API (`api title de` stands for the reply text
`response.choices[0].message.content`) and over the truthiness of
`ast.literal_eval` on the cleaned reply. It returns the record
`{"Text": title, "tag": result}` exactly when the literal-eval is truthy, and
otherwise falls off the end of the function, i.e. returns Python `None`. -/
def generatedataset (api : String → String → String) (truthy : String → Bool)
    (title de : String) : Option (String × String) :=
  let result := stripNewlines (api title de)
  if truthy result then some (title, result) else none

/-- One iteration of the `__main__` loop: a record with an empty `DE` field is
skipped (`continue`); otherwise `generatedataset` is called and its return value
appended to `result`. The accumulator's second component logs the calls made to
`generatedataset`, so that "no API call is made" is expressible. -/
def loopStep (g : String → String → Option (String × String))
    (acc : List (Option (String × String)) × List (String × String)) (p : Paper) :
    List (Option (String × String)) × List (String × String) :=
  if p.DE = "" then acc
  else (acc.1 ++ [g p.TI p.DE], acc.2 ++ [(p.TI, p.DE)])

/-- The `__main__` accumulation loop over the whole dataset, returning the
`result` list together with the log of API calls. -/
def mainLoop (g : String → String → Option (String × String)) (papers : List Paper) :
    List (Option (String × String)) × List (String × String) :=
  papers.foldl (loopStep g) ([], [])

end Demo

namespace BertNER

theorem setAt_eq_some {labels : List String} {i : Nat} {v : String} {out : List String}
    (h : setAt labels i v = some out) : i < labels.length ∧ out = labels.set i v := by
  unfold setAt at h
  split at h
  · exact ⟨by assumption, (Option.some.inj h).symm⟩
  · exact absurd h (by simp)

theorem setAt_length {labels : List String} {i : Nat} {v : String} {out : List String}
    (h : setAt labels i v = some out) : out.length = labels.length := by
  obtain ⟨-, rfl⟩ := setAt_eq_some h
  simp

theorem setAt_of_lt {labels : List String} {i : Nat} (v : String) (h : i < labels.length) :
    setAt labels i v = some (labels.set i v) := by
  unfold setAt
  simp [h]

theorem setIRange_length {v : String} {n : Nat} {labels : List String} {i : Nat}
    {out : List String} (h : setIRange v labels i n = some out) :
    out.length = labels.length := by
  induction n generalizing labels i with
  | zero =>
    unfold setIRange at h
    exact (Option.some.inj h) ▸ rfl
  | succ n ih =>
    unfold setIRange at h
    cases hset : setAt labels i v with
    | none => rw [hset] at h; exact absurd h (by simp)
    | some labels' =>
      rw [hset] at h
      exact (ih h).trans (setAt_length hset)

theorem setIRange_isSome {v : String} {n : Nat} {labels : List String} {i : Nat}
    (h : i + n ≤ labels.length) : ∃ out, setIRange v labels i n = some out := by
  induction n generalizing labels i with
  | zero => exact ⟨labels, rfl⟩
  | succ n ih =>
    have hi : i < labels.length := by omega
    have hlen : (labels.set i v).length = labels.length := by simp
    obtain ⟨out, hout⟩ := @ih (labels.set i v) (i + 1) (by omega)
    refine ⟨out, ?_⟩
    unfold setIRange
    rw [setAt_of_lt v hi]
    exact hout

theorem setIRange_getElem {v : String} {n : Nat} {labels : List String} {i : Nat}
    {out : List String} (h : setIRange v labels i n = some out) (j : Nat) :
    out[j]? = if i ≤ j ∧ j < i + n then some v else labels[j]? := by
  induction n generalizing labels i with
  | zero =>
    unfold setIRange at h
    rw [if_neg (by omega)]
    exact (Option.some.inj h) ▸ rfl
  | succ n ih =>
    unfold setIRange at h
    cases hset : setAt labels i v with
    | none => rw [hset] at h; exact absurd h (by simp)
    | some labels' =>
      rw [hset] at h
      obtain ⟨hi, rfl⟩ := setAt_eq_some hset
      have hj := ih h
      by_cases hc : i + 1 ≤ j ∧ j < i + 1 + n
      · rw [if_pos (by omega) ] at hj ⊢
        exact hj
      · rw [if_neg hc] at hj
        by_cases hji : j = i
        · subst hji
          rw [if_pos (by omega)]
          rw [hj, List.getElem?_set_eq_of_lt v hi]
        · rw [if_neg (by omega), hj, List.getElem?_set_ne (by omega)]

theorem findStartAux_eq_some {tokens entity_tokens : List String} {fuel i j : Nat}
    (h : findStartAux tokens entity_tokens i fuel = some j) :
    i ≤ j ∧ j < i + fuel ∧ window tokens j entity_tokens.length = entity_tokens ∧
      ∀ k, i ≤ k → k < j → window tokens k entity_tokens.length ≠ entity_tokens := by
  induction fuel generalizing i with
  | zero => exact absurd h (by simp [findStartAux])
  | succ fuel ih =>
    unfold findStartAux at h
    split at h
    · cases h
      refine ⟨Nat.le_refl _, by omega, by assumption, ?_⟩
      intro k hk hk'
      omega
    · obtain ⟨h1, h2, h3, h4⟩ := ih h
      refine ⟨by omega, by omega, h3, ?_⟩
      intro k hk hk'
      rcases Nat.eq_or_lt_of_le hk with hk | hk
      · exact hk ▸ (by assumption)
      · exact h4 k hk hk'

theorem findStartAux_eq_none {tokens entity_tokens : List String} {fuel i : Nat}
    (h : findStartAux tokens entity_tokens i fuel = none) :
    ∀ k, i ≤ k → k < i + fuel → window tokens k entity_tokens.length ≠ entity_tokens := by
  induction fuel generalizing i with
  | zero => intro k hk hk'; omega
  | succ fuel ih =>
    unfold findStartAux at h
    split at h
    · exact absurd h (by simp)
    · intro k hk hk'
      rcases Nat.eq_or_lt_of_le hk with hk | hk
      · exact hk ▸ (by assumption)
      · exact ih h k hk (by omega)

theorem findStart_eq_some {tokens entity_tokens : List String} {s : Nat}
    (h : findStart tokens entity_tokens = some s) :
    s + entity_tokens.length ≤ tokens.length ∧
      window tokens s entity_tokens.length = entity_tokens ∧
      ∀ k, k < s → window tokens k entity_tokens.length ≠ entity_tokens := by
  obtain ⟨-, h2, h3, h4⟩ := findStartAux_eq_some h
  have hcount : s < scanCount tokens entity_tokens := by omega
  unfold scanCount at hcount
  split at hcount
  · exact ⟨by omega, h3, fun k hk => h4 k (Nat.zero_le k) hk⟩
  · omega

theorem findStart_eq_none {tokens entity_tokens : List String}
    (h : findStart tokens entity_tokens = none) :
    ∀ k, k + entity_tokens.length ≤ tokens.length →
      window tokens k entity_tokens.length ≠ entity_tokens := by
  intro k hk
  have hle : entity_tokens.length ≤ tokens.length := by omega
  have hcount : scanCount tokens entity_tokens = tokens.length - entity_tokens.length + 1 := by
    unfold scanCount
    rw [if_pos hle]
  exact findStartAux_eq_none h k (Nat.zero_le k) (by omega)

theorem window_nil_eq (tokens : List String) (k : Nat) : window tokens k 0 = [] := by
  unfold window
  exact List.take_zero _

theorem processEntity_of_noMatch {tokenize : String → List String}
    {tokens labels : List String} {e : String × String}
    (h : findStart tokens (tokenize e.1) = none) :
    processEntity tokenize tokens labels e = some labels := by
  unfold processEntity
  rw [h]

theorem processEntity_length {tokenize : String → List String}
    {tokens labels out : List String} {e : String × String}
    (h : processEntity tokenize tokens labels e = some out) :
    out.length = labels.length := by
  unfold processEntity at h
  split at h
  · exact (Option.some.inj h) ▸ rfl
  · split at h
    · exact absurd h (by simp)
    · rename_i labels' hset
      exact (setIRange_length h).trans (setAt_length hset)

theorem findStart_empty_eq_zero {tokens : List String} {s : Nat}
    (h : findStart tokens [] = some s) : s = 0 := by
  obtain ⟨-, -, hleast⟩ := findStart_eq_some h
  by_contra hs
  exact hleast 0 (by omega) (by simp [window_nil_eq])

theorem processEntity_isSome {tokenize : String → List String}
    {tokens labels : List String} (e : String × String)
    (hlen : labels.length = tokens.length) (hcase : tokenize e.1 ≠ [] ∨ tokens ≠ []) :
    ∃ out, processEntity tokenize tokens labels e = some out := by
  cases hfs : findStart tokens (tokenize e.1) with
  | none => exact ⟨labels, processEntity_of_noMatch hfs⟩
  | some s =>
    obtain ⟨hbound, hwin, hleast⟩ := findStart_eq_some hfs
    cases het : tokenize e.1 with
    | nil =>
      have hne : tokens ≠ [] := by
        rcases hcase with hcase | hcase
        · exact absurd het hcase
        · exact hcase
      have htok : 0 < tokens.length := List.length_pos.mpr hne
      have hfs' : findStart tokens [] = some s := het ▸ hfs
      have hs0 : s = 0 := findStart_empty_eq_zero hfs'
      subst hs0
      refine ⟨labels.set 0 ("B-" ++ e.2), ?_⟩
      simp only [processEntity, het, hfs', List.length_nil]
      rw [setAt_of_lt _ (by omega)]
      rfl
    | cons t ts =>
      have hslt : s < labels.length := by
        rw [het] at hbound
        simp only [List.length_cons] at hbound
        omega
      obtain ⟨out, hout⟩ := @setIRange_isSome ("I-" ++ e.2) ((tokenize e.1).length - 1)
        (labels.set s ("B-" ++ e.2)) (s + 1)
        (by rw [het] at hbound ⊢; simp only [List.length_cons, List.length_set] at *; omega)
      refine ⟨out, ?_⟩
      simp only [processEntity, hfs]
      rw [setAt_of_lt _ hslt]
      exact hout

theorem tagFrom_length {tokenize : String → List String} {tokens : List String}
    {es : List (String × String)} :
    ∀ {labels out : List String}, tagFrom tokenize tokens labels es = some out →
      out.length = labels.length := by
  induction es with
  | nil =>
    intro labels out h
    exact (Option.some.inj h) ▸ rfl
  | cons e es ih =>
    intro labels out h
    unfold tagFrom at h
    cases hpe : processEntity tokenize tokens labels e with
    | none => rw [hpe] at h; exact absurd h (by simp)
    | some labels' =>
      rw [hpe] at h
      exact (ih h).trans (processEntity_length hpe)

theorem tagFrom_isSome {tokenize : String → List String} {tokens : List String}
    (es : List (String × String)) (hne : tokens ≠ []) :
    ∀ {labels : List String}, labels.length = tokens.length →
      ∃ out, tagFrom tokenize tokens labels es = some out := by
  induction es with
  | nil => exact fun {labels} _ => ⟨labels, rfl⟩
  | cons e es ih =>
    intro labels hlen
    obtain ⟨labels', hpe⟩ := processEntity_isSome e hlen (Or.inr hne)
    obtain ⟨out, hout⟩ := ih ((processEntity_length hpe).trans hlen)
    refine ⟨out, ?_⟩
    unfold tagFrom
    rw [hpe]
    exact hout

theorem tagFrom_cons (tokenize : String → List String) (tokens labels : List String)
    (e : String × String) (es : List (String × String)) :
    tagFrom tokenize tokens labels (e :: es) =
      match processEntity tokenize tokens labels e with
      | none => none
      | some labels' => tagFrom tokenize tokens labels' es := rfl

theorem tagFrom_append (tokenize : String → List String) (tokens : List String)
    (labels : List String) (es es' : List (String × String)) :
    tagFrom tokenize tokens labels (es ++ es') =
      (tagFrom tokenize tokens labels es).bind
        (fun ls => tagFrom tokenize tokens ls es') := by
  induction es generalizing labels with
  | nil => rfl
  | cons e es ih =>
    rw [List.cons_append, tagFrom_cons, tagFrom_cons]
    cases hpe : processEntity tokenize tokens labels e with
    | none => rfl
    | some labels' =>
      show tagFrom tokenize tokens labels' (es ++ es') = _
      rw [ih labels']

theorem tagFrom_singleton (tokenize : String → List String) (tokens : List String)
    (labels : List String) (e : String × String) :
    tagFrom tokenize tokens labels [e] = processEntity tokenize tokens labels e := by
  unfold tagFrom
  cases hpe : processEntity tokenize tokens labels e <;> rfl

theorem window_isInfix {tokens entity_tokens : List String} {s : Nat}
    (h : window tokens s entity_tokens.length = entity_tokens) :
    entity_tokens <:+: tokens := by
  refine ⟨tokens.take s, (tokens.drop s).drop entity_tokens.length, ?_⟩
  have key : tokens.take s ++
      (window tokens s entity_tokens.length ++ (tokens.drop s).drop entity_tokens.length) =
      tokens := by
    unfold window
    rw [List.take_append_drop, List.take_append_drop]
  rw [h, ← List.append_assoc] at key
  exact key

end BertNER

namespace Demo

theorem foldl_loopStep_fst (g : String → String → Option (String × String))
    (papers : List Paper) :
    ∀ acc : List (Option (String × String)) × List (String × String),
      (papers.foldl (loopStep g) acc).1 =
        acc.1 ++ (papers.filter (fun p => p.DE != "")).map (fun p => g p.TI p.DE) := by
  induction papers with
  | nil => intro acc; simp
  | cons p ps ih =>
    intro acc
    rw [List.foldl_cons, List.filter_cons]
    by_cases hd : p.DE = ""
    · simp [loopStep, hd, ih]
    · simp [loopStep, hd, ih]

theorem mainLoop_fst (g : String → String → Option (String × String))
    (papers : List Paper) :
    (mainLoop g papers).1 =
      (papers.filter (fun p => p.DE != "")).map (fun p => g p.TI p.DE) := by
  unfold mainLoop
  rw [foldl_loopStep_fst]
  rfl

end Demo

open BertNER Demo

/-- C1 (amended): whenever the tagger returns a label sequence, its length equals
the token sequence's length; and whenever the token sequence is non-empty a label
sequence is in fact returned. The claim's unconditional form fails only in the
degenerate case of an empty token sequence together with an entity whose phrase
tokenizes to the empty sequence, where the write `labels[0]` is out of bounds
(`IndexError`), see the counterexample. -/
theorem c1_tag_length (tokenize : String → List String) (tokens : List String)
    (entities : List (String × String)) :
    (∀ out, tag tokenize tokens entities = some out → out.length = tokens.length) ∧
    (tokens ≠ [] → ∃ out, tag tokenize tokens entities = some out) := by
  constructor
  · intro out h
    unfold tag at h
    exact (tagFrom_length h).trans (by simp)
  · intro hne
    exact tagFrom_isSome entities hne (by simp)

/-- C1 witness: the length invariant and totality at a concrete input. -/
theorem c1_tag_length_witness :
    (["O", "O"] : List String).length = (["hello", "world"] : List String).length ∧
    ∃ out, tag wsTokenize ["hello", "world"] [("bye", "Object")] = some out := by
  have h := c1_tag_length wsTokenize ["hello", "world"] [("bye", "Object")]
  exact ⟨h.1 ["O", "O"] (by decide), h.2 (by decide)⟩

/-- C1 counterexample: on an empty token sequence and an entity whose phrase
tokenizes to `[]`, the code performs the out-of-range write `labels[0]`
(an `IndexError`), so no label sequence at all is returned. -/
theorem c1_counterexample : tag (fun _ => []) [] [("x", "A")] = none := by decide

/-- C2: when the scan returns a start offset, that offset carries a window
equal to the tokenized phrase, every smaller offset does not, and the span fits
inside the token sequence; moreover with a phrase occurring twice only the
first occurrence is tagged. -/
theorem c2_first_match (tokens entity_tokens : List String) (i : Nat)
    (h : findStart tokens entity_tokens = some i) :
    (i + entity_tokens.length ≤ tokens.length ∧
     window tokens i entity_tokens.length = entity_tokens ∧
     ∀ j, j < i → window tokens j entity_tokens.length ≠ entity_tokens) ∧
    tag wsTokenize ["a", "b", "a", "b"] [("a b", "X")] =
      some ["B-X", "I-X", "O", "O"] := by
  obtain ⟨h1, h2, h3⟩ := findStart_eq_some h
  exact ⟨⟨h1, h2, fun j hj => h3 j hj⟩, by decide⟩

/-- C2 witness: the first-match characterization at a concrete input where the
phrase occurs twice. -/
theorem c2_first_match_witness :
    (0 + (["a", "b"] : List String).length ≤ (["a", "b", "a", "b"] : List String).length ∧
     window ["a", "b", "a", "b"] 0 (["a", "b"] : List String).length = ["a", "b"] ∧
     ∀ j, j < 0 → window ["a", "b", "a", "b"] j (["a", "b"] : List String).length ≠ ["a", "b"]) ∧
    tag wsTokenize ["a", "b", "a", "b"] [("a b", "X")] =
      some ["B-X", "I-X", "O", "O"] :=
  c2_first_match ["a", "b", "a", "b"] ["a", "b"] 0 (by decide)

/-- C3: contrary to the claim, the code contains no guard for a phrase that
tokenizes to the empty sequence: such an entity "matches" at offset 0 and tags
position 0 with a `B-` label (and on an empty token sequence the write
`labels[0]` is an out-of-range `IndexError`). -/
theorem c3_empty_phrase_tagged :
    tag (fun _ => []) ["hello"] [("", "X")] = some ["B-X"] ∧
    tag (fun _ => []) [] [("", "X")] = none := by decide

/-- C4: the later entity in the input list overwrites labels of an earlier
entity on overlapping positions — concretely on the spec's example, and in
general because the entity loop processes a list `es ++ e` by running `e` on
the label state left by `es`. -/
theorem c4_overlap_overwrite :
    tag wsTokenize ["x", "y", "z"] [("x y", "A"), ("y z", "B")] =
      some ["B-A", "B-B", "I-B"] ∧
    ∀ (tokenize : String → List String) (tokens labels : List String)
      (es : List (String × String)) (e : String × String),
      tagFrom tokenize tokens labels (es ++ [e]) =
        (tagFrom tokenize tokens labels es).bind
          (fun ls => processEntity tokenize tokens ls e) := by
  refine ⟨by decide, ?_⟩
  intro tokenize tokens labels es e
  simp only [tagFrom_append, tagFrom_singleton]

/-- C5: an entity whose tokenized phrase is not a contiguous subsequence of the
token sequence is a silent no-op: the label list is returned unchanged, as on
the spec's example. -/
theorem c5_no_match_noop (tokenize : String → List String)
    (tokens labels : List String) (phrase label : String)
    (h : ¬ (tokenize phrase) <:+: tokens) :
    processEntity tokenize tokens labels (phrase, label) = some labels ∧
    tag wsTokenize ["hello", "world"] [("bye", "Object")] = some ["O", "O"] := by
  refine ⟨?_, by decide⟩
  cases hfs : findStart tokens (tokenize phrase) with
  | none => exact processEntity_of_noMatch hfs
  | some s => exact absurd (window_isInfix (findStart_eq_some hfs).2.1) h

/-- C5 witness: the no-match no-op at the spec's concrete input. -/
theorem c5_no_match_noop_witness :
    processEntity wsTokenize ["hello", "world"] ["O", "O"] ("bye", "Object") =
      some ["O", "O"] ∧
    tag wsTokenize ["hello", "world"] [("bye", "Object")] = some ["O", "O"] :=
  c5_no_match_noop wsTokenize ["hello", "world"] ["O", "O"] "bye" "Object" (by decide)

/-- C6: when an entity's non-empty tokenized phrase matches at start index `i`,
processing that entity sets `labels[i]` to `B-` plus the label, positions
`i+1 .. i + len - 1` to `I-` plus the label, and leaves every other position
unchanged; on the spec's example this yields
`["O", "B-Object", "I-Object", "O", "O"]`. -/
theorem c6_span_write (tokenize : String → List String) (tokens labels : List String)
    (phrase label : String) (i : Nat)
    (hlen : labels.length = tokens.length)
    (hne : tokenize phrase ≠ [])
    (h : findStart tokens (tokenize phrase) = some i) :
    (∃ out, processEntity tokenize tokens labels (phrase, label) = some out ∧
      out[i]? = some ("B-" ++ label) ∧
      (∀ j, i < j → j < i + (tokenize phrase).length → out[j]? = some ("I-" ++ label)) ∧
      (∀ j, j < i ∨ i + (tokenize phrase).length ≤ j → out[j]? = labels[j]?)) ∧
    tag wsTokenize ["a", "red", "car", "is", "fast"] [("red car", "Object")] =
      some ["O", "B-Object", "I-Object", "O", "O"] := by
  refine ⟨?_, by decide⟩
  obtain ⟨hbound, hwin, hleast⟩ := findStart_eq_some h
  have hpos : 0 < (tokenize phrase).length := List.length_pos.mpr hne
  have hi : i < labels.length := by omega
  obtain ⟨out, hout⟩ := @setIRange_isSome ("I-" ++ label) ((tokenize phrase).length - 1)
    (labels.set i ("B-" ++ label)) (i + 1) (by simp only [List.length_set]; omega)
  refine ⟨out, ?_, ?_, ?_, ?_⟩
  · simp only [processEntity, h]
    rw [setAt_of_lt _ hi]
    exact hout
  · rw [setIRange_getElem hout i, if_neg (by omega),
      List.getElem?_set_eq_of_lt ("B-" ++ label) hi]
  · intro j hj hj'
    rw [setIRange_getElem hout j, if_pos (by omega)]
  · intro j hj
    rw [setIRange_getElem hout j, if_neg (by omega), List.getElem?_set_ne (by omega)]

/-- C6 witness: the span write at the spec's concrete input. -/
theorem c6_span_write_witness :
    (∃ out, processEntity wsTokenize ["a", "red", "car", "is", "fast"]
        ["O", "O", "O", "O", "O"] ("red car", "Object") = some out ∧
      out[1]? = some ("B-" ++ "Object") ∧
      (∀ j, 1 < j → j < 1 + (wsTokenize "red car").length →
        out[j]? = some ("I-" ++ "Object")) ∧
      (∀ j, j < 1 ∨ 1 + (wsTokenize "red car").length ≤ j →
        out[j]? = (["O", "O", "O", "O", "O"] : List String)[j]?)) ∧
    tag wsTokenize ["a", "red", "car", "is", "fast"] [("red car", "Object")] =
      some ["O", "B-Object", "I-Object", "O", "O"] :=
  c6_span_write wsTokenize ["a", "red", "car", "is", "fast"] ["O", "O", "O", "O", "O"]
    "red car" "Object" 1 (by decide) (by decide) (by decide)

/-- C7: the entity loop, read as a big-step relation on the threaded label
state, is deterministic — any two runs from the same tokenizer, token sequence,
initial labels and entity list produce the same outcome — and the relation is
adequate for the pure function `tagFrom`, so each invocation's result is a
function of its own inputs alone. -/
theorem c7_deterministic (tokenize : String → List String) (tokens : List String) :
    (∀ labels es r₁ r₂, TagRun tokenize tokens labels es r₁ →
      TagRun tokenize tokens labels es r₂ → r₁ = r₂) ∧
    (∀ labels es r, TagRun tokenize tokens labels es r ↔
      tagFrom tokenize tokens labels es = r) := by
  have adq : ∀ labels es r, TagRun tokenize tokens labels es r ↔
      tagFrom tokenize tokens labels es = r := by
    intro labels es r
    constructor
    · intro h
      induction h with
      | nil labels => rfl
      | consFail labels e es hpe => rw [tagFrom_cons, hpe]
      | consOk labels labels' e es r hpe hrun ih => rw [tagFrom_cons, hpe]; exact ih
    · intro h
      induction es generalizing labels r with
      | nil => exact h ▸ TagRun.nil labels
      | cons e es ih =>
        rw [tagFrom_cons] at h
        cases hpe : processEntity tokenize tokens labels e with
        | none =>
          rw [hpe] at h
          have h' : (none : Option (List String)) = r := h
          exact h' ▸ TagRun.consFail labels e es hpe
        | some labels' =>
          rw [hpe] at h
          have h' : tagFrom tokenize tokens labels' es = r := h
          exact TagRun.consOk labels labels' e es r hpe (ih labels' r h')
  refine ⟨?_, adq⟩
  intro labels es r₁ r₂ h₁ h₂
  exact ((adq labels es r₁).mp h₁).symm.trans ((adq labels es r₂).mp h₂)

/-- C7 witness: two concrete runs of the relation from the same input agree. -/
theorem c7_deterministic_witness :
    (some ["B-A"] : Option (List String)) = some ["B-A"] :=
  (c7_deterministic wsTokenize ["x"]).1 ["O"] [("x", "A")] (some ["B-A"]) (some ["B-A"])
    (TagRun.consOk ["O"] ["B-A"] ("x", "A") [] (some ["B-A"]) (by decide)
      (TagRun.nil ["B-A"]))
    (TagRun.consOk ["O"] ["B-A"] ("x", "A") [] (some ["B-A"]) (by decide)
      (TagRun.nil ["B-A"]))

/-- C8: a record whose `DE` field is the empty string is skipped by the
`__main__` loop: removing it from anywhere in the input changes neither the
accumulated `result` list nor the log of `generatedataset` calls, so no API
call is made for it and nothing is appended for it. -/
theorem c8_skip_empty (g : String → String → Option (String × String))
    (papers₁ papers₂ : List Paper) (p : Paper) (h : p.DE = "") :
    mainLoop g (papers₁ ++ p :: papers₂) = mainLoop g (papers₁ ++ papers₂) := by
  unfold mainLoop
  rw [List.foldl_append, List.foldl_append, List.foldl_cons]
  simp [loopStep, h]

/-- C8 witness: skipping a concrete empty-`DE` record. -/
theorem c8_skip_empty_witness :
    mainLoop (fun _ _ => none) [⟨"a title", ""⟩, ⟨"b title", "kw"⟩] =
      mainLoop (fun _ _ => none) [⟨"b title", "kw"⟩] :=
  c8_skip_empty (fun _ _ => none) [] [⟨"b title", "kw"⟩] ⟨"a title", ""⟩ rfl

/-- C9: for an entity whose phrase tokenizes to a non-empty sequence, any match
satisfies `start_index + len(phrase_tokens) ≤ len(tokens)`, and processing the
entity never aborts with an out-of-bounds write (it always returns a label
list). -/
theorem c9_in_bounds (tokenize : String → List String) (tokens labels : List String)
    (phrase label : String)
    (hne : tokenize phrase ≠ [])
    (hlen : labels.length = tokens.length) :
    (∀ s, findStart tokens (tokenize phrase) = some s →
      s + (tokenize phrase).length ≤ tokens.length) ∧
    ∃ out, processEntity tokenize tokens labels (phrase, label) = some out :=
  ⟨fun _ hs => (findStart_eq_some hs).1,
    processEntity_isSome (phrase, label) hlen (Or.inl hne)⟩

/-- C9 witness: in-bounds processing at a concrete input. -/
theorem c9_in_bounds_witness :
    (∀ s, findStart ["a", "red", "car"] (wsTokenize "red car") = some s →
      s + (wsTokenize "red car").length ≤ (["a", "red", "car"] : List String).length) ∧
    ∃ out, processEntity wsTokenize ["a", "red", "car"] ["O", "O", "O"]
      ("red car", "Object") = some out :=
  c9_in_bounds wsTokenize ["a", "red", "car"] ["O", "O", "O"] "red car" "Object"
    (by decide) (by decide)

/-- C10: `generatedataset` returns the record exactly when the literal-eval of
the cleaned API reply is truthy and otherwise returns `None`; the `__main__`
loop appends that `None` to `result`, so the serialized output can contain
null entries. -/
theorem c10_null_entries (api : String → String → String) (truthy : String → Bool)
    (title de : String) :
    (truthy (stripNewlines (api title de)) = false →
      generatedataset api truthy title de = none) ∧
    (truthy (stripNewlines (api title de)) = true →
      generatedataset api truthy title de = some (title, stripNewlines (api title de))) ∧
    (∀ (g : String → String → Option (String × String)) (papers : List Paper)
      (p : Paper), p ∈ papers → p.DE ≠ "" → g p.TI p.DE = none →
      none ∈ (mainLoop g papers).1) := by
  refine ⟨?_, ?_, ?_⟩
  · intro h
    simp [generatedataset, h]
  · intro h
    simp [generatedataset, h]
  · intro g papers p hmem hde hg
    rw [mainLoop_fst]
    refine List.mem_map.mpr ⟨p, List.mem_filter.mpr ⟨hmem, ?_⟩, hg⟩
    simp [hde]

/-- C10 witness: a falsy reply yields `None` and the loop keeps that `None`. -/
theorem c10_null_entries_witness :
    ((fun _ => false) (stripNewlines ((fun _ _ => "[]") "a title" "kw")) = false →
      generatedataset (fun _ _ => "[]") (fun _ => false) "a title" "kw" = none) ∧
    ((fun _ => false) (stripNewlines ((fun _ _ => "[]") "a title" "kw")) = true →
      generatedataset (fun _ _ => "[]") (fun _ => false) "a title" "kw" =
        some ("a title", stripNewlines ((fun _ _ => "[]") "a title" "kw"))) ∧
    (∀ (g : String → String → Option (String × String)) (papers : List Paper)
      (p : Paper), p ∈ papers → p.DE ≠ "" → g p.TI p.DE = none →
      none ∈ (mainLoop g papers).1) :=
  c10_null_entries (fun _ _ => "[]") (fun _ => false) "a title" "kw"

